import Mathlib

/- Verification of the gs-quant pricing-context and backtest-engine core.
   Shallow embedding of:
   - gs_quant/backtests/predefined_asset_engine.py
   - gs_quant/markets/historical.py
   - the PricingContext stack behaviour (core.py is not part of the sources;
     it is modelled from the spec and the tests in
     gs_quant/test/markets/test_pricing_context.py).
   Dates and times-of-day are modelled as natural numbers, datetimes in the
   engine as (date, time) pairs, money quantities as integers. -/

/- ------------------------------------------------------------------ -/
/- Backtest engine: timer construction (predefined_asset_engine.py)   -/
/- ------------------------------------------------------------------ -/

/-- A datetime in the engine: a (date, time-of-day) pair, both modelled as
naturals.  `dt.datetime.combine(d, t)` is the pair `(d, t)`. -/
abbrev DateTimeE := Nat × Nat

/-- Strict lexicographic order on engine datetimes: the order on
`dt.datetime` values restricted to (date, time) pairs. -/
def dtLt (a b : DateTimeE) : Prop :=
  a.1 < b.1 ∨ (a.1 = b.1 ∧ a.2 < b.2)

instance (a b : DateTimeE) : Decidable (dtLt a b) := by
  unfold dtLt; exact inferInstance

/-- Non-strict (non-decreasing) lexicographic order on engine datetimes. -/
def dtLe (a b : DateTimeE) : Prop :=
  a.1 < b.1 ∨ (a.1 = b.1 ∧ a.2 ≤ b.2)

instance (a b : DateTimeE) : Decidable (dtLe a b) := by
  unfold dtLe; exact inferInstance

/-- A time window, as used by `ValuationMethod` (backtests/core.py, external
to the sources; only its `end` field is read by the engine). -/
structure TimeWindow where
  startTime : Nat
  endTime : Nat
deriving DecidableEq

/-- The valuation method configuration: an optional time window. -/
structure ValuationMethodR where
  window : Option TimeWindow
deriving DecidableEq

/-- `PredefinedAssetEngine._eod_valuation_time`: the window end when a window
is configured, else `dt.time(23)` (23:00, modelled as the natural 23). -/
def _eod_valuation_time (vm : ValuationMethodR) : Nat :=
  match vm.window with
  | some w => w.endTime
  | none => 23

/-- `dict.fromkeys` de-duplication: keeps the first occurrence of each key,
in order.  `seen` is the set of keys already emitted. -/
def dedupKeys (seen : List Nat) : List Nat → List Nat
  | [] => []
  | x :: xs =>
    if x ∈ seen then dedupKeys seen xs
    else x :: dedupKeys (x :: seen) xs

/-- An action declaration: Python dispatch is on the runtime type
(`type(action)`), modelled by the `atype` tag; `aid` stands for the rest of
the action's payload. -/
structure ActionR where
  atype : Nat
  aid : Nat
deriving DecidableEq

/-- The result of `trigger.has_triggered(state, backtest)`: a `triggered`
flag and an optional info dict keyed by action type. -/
structure TriggerInfoR (Info : Type) where
  triggered : Bool
  infoDict : Option (List (Nat × Info))

/-- A strategy trigger: its declared times of day (`get_trigger_times`), its
firing predicate (`has_triggered`) and its attached actions. -/
structure TriggerR (B Info : Type) where
  triggerTimes : List Nat
  hasTriggered : DateTimeE → B → TriggerInfoR Info
  actions : List ActionR

/-- A strategy: a list of triggers. -/
structure StrategyR (B Info : Type) where
  triggers : List (TriggerR B Info)

/-- The deduplicated time-of-day list built inside
`PredefinedAssetEngine._timer`: every trigger's declared times (collected in
declaration order by `times.extend`), then the end-of-day valuation time
appended, then `list(dict.fromkeys(times))`. -/
def timerTimes {B Info : Type} (strat : StrategyR B Info) (vm : ValuationMethodR) : List Nat :=
  dedupKeys []
    ((strat.triggers.foldl (fun acc tr => acc ++ tr.triggerTimes) []) ++ [_eod_valuation_time vm])

/-- `PredefinedAssetEngine._timer`: the calendar date range (the external
`date_range(start, end, calendars)` call is passed in as the function
`date_range`) expanded against the deduplicated times, date-major
(`for d in dates: for t in times: all_times.append(combine(d, t))`). -/
def _timer {B Info : Type} (date_range : Nat → Nat → List Nat)
    (strat : StrategyR B Info) (vm : ValuationMethodR) (start fin : Nat) : List DateTimeE :=
  (date_range start fin).flatMap (fun d => (timerTimes strat vm).map (fun t => (d, t)))

/- ------------------------------------------------------------------ -/
/- Action handler dispatch                                            -/
/- ------------------------------------------------------------------ -/

/-- The engine's `action_impl_map`: an association from action type tags to
handler constructors.  A handler constructor, applied to the action, yields
the handler's `apply_action(state, backtest, info)` behaviour, which returns
the generated orders. -/
abbrev ActionMap (B Order Info : Type) :=
  List (Nat × (ActionR → DateTimeE → B → Option Info → List Order))

/-- `Except.isOk` helper: whether a fallible computation succeeded. -/
def isOkE {e a : Type} : Except e a → Bool
  | .ok _ => true
  | .error _ => false

/-- `PredefinedAssetEngineActionFactory.get_action_handler`: looks the exact
action type up in `action_impl_map`; when absent raises
`RuntimeError(f'Action ... not supported by engine')` naming the type,
modelled as `.error` carrying the type tag. -/
def get_action_handler {B Order Info : Type} (m : ActionMap B Order Info) (a : ActionR) :
    Except Nat (DateTimeE → B → Option Info → List Order) :=
  match m.find? (fun p => p.1 == a.atype) with
  | some p => .ok (p.2 a)
  | none => .error a.atype

/-- `PredefinedAssetEngine.supports_strategy`: collects every trigger's
actions with `reduce(lambda x, y: x + y, map(lambda x: x.actions, triggers))`
— which raises `TypeError` on an empty trigger list, modelled by
`.error ()` — then tries to resolve a handler for each, returning `False`
on the first `RuntimeError`. -/
def supports_strategy {B Order Info : Type} (m : ActionMap B Order Info)
    (strat : StrategyR B Info) : Except Unit Bool :=
  match strat.triggers with
  | [] => .error ()
  | _ =>
    .ok ((strat.triggers.flatMap (fun tr => tr.actions)).all
      (fun a => isOkE (get_action_handler m a)))

/- ------------------------------------------------------------------ -/
/- AddTradeActionImpl                                                 -/
/- ------------------------------------------------------------------ -/

/-- A priceable, as consumed by `AddTradeActionImpl.generate_orders`: an
instrument identifier and an `instrument_quantity`. -/
structure PriceableR where
  instrument : Nat
  instrument_quantity : Int
deriving DecidableEq

/-- An `AddTradeAction` as read by the handler: priceables, an optional
holding duration (`trade_duration`, emitted only when it is a
`dt.timedelta`, hence the `Option`), and the action name (`_name`). -/
structure AddTradeActionR where
  priceables : List PriceableR
  trade_duration : Option Int
  aname : Nat
deriving DecidableEq

/-- An `OrderAtMarket` as built by `AddTradeActionImpl.generate_orders`.
The state datetime is modelled as an integer here so that adding a
`timedelta` is integer addition. -/
structure OrderAtMarketR where
  instrument : Nat
  quantity : Int
  generation_time : Int
  execution_datetime : Int
  source : Nat
deriving DecidableEq

/-- `AddTradeActionImpl.generate_orders`: one market order per priceable,
plus a closing order with negated quantity and offset execution time when
`trade_duration` is a timedelta. -/
def generate_orders (action : AddTradeActionR) (state : Int) : List OrderAtMarketR :=
  action.priceables.flatMap (fun p =>
    { instrument := p.instrument
      quantity := p.instrument_quantity
      generation_time := state
      execution_datetime := state
      source := action.aname } ::
    (match action.trade_duration with
     | some dur =>
       [{ instrument := p.instrument
          quantity := p.instrument_quantity * (-1)
          generation_time := state
          execution_datetime := state + dur
          source := action.aname }]
     | none => []))

/-- `AddTradeActionImpl.apply_action`: returns `generate_orders`. -/
def apply_action (action : AddTradeActionR) (state : Int) : List OrderAtMarketR :=
  generate_orders action state

/- ------------------------------------------------------------------ -/
/- Event loop (`PredefinedAssetEngine._run`)                          -/
/- ------------------------------------------------------------------ -/

/-- The tagged event variant dispatched by `_run`: `MarketEvent`,
`OrderEvent(order)`, `FillEvent(fill)` and `ValuationEvent`. -/
inductive EventR (Order Fill : Type) where
  | market : EventR Order Fill
  | order : Order → EventR Order Fill
  | fill : Fill → EventR Order Fill
  | valuation : EventR Order Fill
deriving DecidableEq

/-- The collaborators the event loop drives: the data handler (`update`),
the execution engine (`ping`, `submit_order`) and the backtest accumulator
(`record_orders`, `update_fill`, `mark_to_market`).  Their implementations
live outside the sources; they are abstract state-transition functions
here.  `ping` and `mark_to_market` read the shared data handler. -/
structure Collab (D E B Order Fill : Type) where
  update : D → DateTimeE → D
  ping : E → D → DateTimeE → List Fill × E
  submitOrder : E → Order → E
  recordOrders : B → List Order → B
  updateFill : B → Fill → B
  markToMarket : B → D → DateTimeE → B

/-- The mutable state threaded through `_run`: data handler, execution
engine and backtest accumulator. -/
structure SimState (D E B : Type) where
  dh : D
  eng : E
  bt : B

/-- Lookup of the trigger-supplied side-channel info for an action type:
`info_dict[type(action)] if info_dict and type(action) in info_dict else
None`. -/
def lookupInfo {Info : Type} (infoDict : Option (List (Nat × Info))) (t : Nat) : Option Info :=
  match infoDict with
  | none => none
  | some d => (d.find? (fun p => p.1 == t)).map (fun p => p.2)

/-- Market-event handling, inner loop over one trigger's actions: resolve a
handler (propagating the unsupported-action error), apply it, record the
orders on the backtest, and collect the orders (to be enqueued as Order
events) in action order. -/
def processActions {D E B Order Fill Info : Type} (c : Collab D E B Order Fill)
    (m : ActionMap B Order Info) (state : DateTimeE) (infoDict : Option (List (Nat × Info))) :
    List ActionR → SimState D E B → Except Nat (List Order × SimState D E B)
  | [], s => .ok ([], s)
  | a :: rest, s =>
    match get_action_handler m a with
    | .error t => .error t
    | .ok h =>
      let os := h state s.bt (lookupInfo infoDict a.atype)
      let s1 : SimState D E B := ⟨s.dh, s.eng, c.recordOrders s.bt os⟩
      match processActions c m state infoDict rest s1 with
      | .error t => .error t
      | .ok (os2, s2) => .ok (os ++ os2, s2)

/-- Market-event handling, outer loop over the strategy's triggers:
evaluate `has_triggered(state, backtest)` and, when triggered, process the
trigger's actions; orders are collected in trigger order. -/
def processTriggers {D E B Order Fill Info : Type} (c : Collab D E B Order Fill)
    (m : ActionMap B Order Info) (state : DateTimeE) :
    List (TriggerR B Info) → SimState D E B → Except Nat (List Order × SimState D E B)
  | [], s => .ok ([], s)
  | tr :: rest, s =>
    let ti := tr.hasTriggered state s.bt
    if ti.triggered then
      match processActions c m state ti.infoDict tr.actions s with
      | .error t => .error t
      | .ok (os, s1) =>
        match processTriggers c m state rest s1 with
        | .error t => .error t
        | .ok (os2, s2) => .ok (os ++ os2, s2)
    else processTriggers c m state rest s

/-- Whether an event is a Market event (used for the termination measure of
the queue drain: Market events spawn only Order events, which spawn
nothing). -/
def isMarketE {Order Fill : Type} : EventR Order Fill → Bool
  | .market => true
  | _ => false

/-- Number of Market events in a queue. -/
def countMarket {Order Fill : Type} (q : List (EventR Order Fill)) : Nat :=
  q.countP isMarketE

/-- The `while events:` loop of `_run`: pop the queue head (FIFO), dispatch
on the event kind, enqueue the Order events a Market event generates at the
back of the queue (`events.extend`), and keep going until the queue is
empty.  Returns the processed events in processing order, paired with the
final state; an unsupported action type aborts with its type tag (the
`RuntimeError` of `get_action_handler`). -/
def drain {D E B Order Fill Info : Type} (c : Collab D E B Order Fill)
    (m : ActionMap B Order Info) (strat : StrategyR B Info) (state : DateTimeE) :
    List (EventR Order Fill) → SimState D E B →
    Except Nat (List (EventR Order Fill) × SimState D E B)
  | [], s => .ok ([], s)
  | .market :: rest, s =>
    match processTriggers c m state strat.triggers s with
    | .error t => .error t
    | .ok (os, s1) =>
      match drain c m strat state (rest ++ os.map EventR.order) s1 with
      | .error t => .error t
      | .ok (tr, s2) => .ok (.market :: tr, s2)
  | .order o :: rest, s =>
    match drain c m strat state rest ⟨s.dh, c.submitOrder s.eng o, s.bt⟩ with
    | .error t => .error t
    | .ok (tr, s2) => .ok (.order o :: tr, s2)
  | .fill f :: rest, s =>
    match drain c m strat state rest ⟨s.dh, s.eng, c.updateFill s.bt f⟩ with
    | .error t => .error t
    | .ok (tr, s2) => .ok (.fill f :: tr, s2)
  | .valuation :: rest, s =>
    match drain c m strat state rest ⟨s.dh, s.eng, c.markToMarket s.bt s.dh state⟩ with
    | .error t => .error t
    | .ok (tr, s2) => .ok (.valuation :: tr, s2)
termination_by q _ => (countMarket q, q.length)
decreasing_by
  · apply Prod.Lex.left
    have h0 : (List.map (EventR.order : Order → EventR Order Fill) os).countP isMarketE = 0 := by
      simp [List.countP_eq_zero, isMarketE]
    simp only [countMarket, List.countP_append, List.countP_cons, isMarketE, h0, if_true]
    omega
  · apply Prod.Lex.right
    simp
  · apply Prod.Lex.right
    simp
  · apply Prod.Lex.right
    simp

/-- One iteration of the `for state in timer:` loop of `_run`: advance the
data handler, collect the fills due (`ping`), enqueue them, enqueue a
Market event, enqueue a Valuation event when the state's time-of-day is the
end-of-day valuation time, then drain the queue to empty. -/
def stepE {D E B Order Fill Info : Type} (c : Collab D E B Order Fill)
    (m : ActionMap B Order Info) (strat : StrategyR B Info) (vm : ValuationMethodR)
    (state : DateTimeE) (s : SimState D E B) :
    Except Nat (List (EventR Order Fill) × SimState D E B) :=
  let dh := c.update s.dh state
  let pr := c.ping s.eng dh state
  let q0 := pr.1.map EventR.fill ++ [EventR.market] ++
    (if state.2 = _eod_valuation_time vm then [EventR.valuation] else [])
  drain c m strat state q0 ⟨dh, pr.2, s.bt⟩

/-- `PredefinedAssetEngine._run`: iterate the timer states in order, fully
draining each state's event queue before the next state; the trace records
every processed event tagged with the state at which it was processed. -/
def _run {D E B Order Fill Info : Type} (c : Collab D E B Order Fill)
    (m : ActionMap B Order Info) (strat : StrategyR B Info) (vm : ValuationMethodR) :
    List DateTimeE → SimState D E B →
    Except Nat (List (DateTimeE × EventR Order Fill) × SimState D E B)
  | [], s => .ok ([], s)
  | t :: rest, s =>
    match stepE c m strat vm t s with
    | .error a => .error a
    | .ok (tr, s1) =>
      match _run c m strat vm rest s1 with
      | .error a => .error a
      | .ok (tr2, s2) => .ok (tr.map (fun e => (t, e)) ++ tr2, s2)

/-- Specification of one timer step, written from the spec's ordering
guarantees: for each timestamp, the fills are processed first in `ping`
order, then the Market event (firing the triggers and recording their
orders), then the Valuation event when the timestamp is the end-of-day
valuation time, and finally — still within the same timestamp — one Order
event per generated order in generation order, each submitted to the
execution engine; no event of a later timestamp intervenes. -/
def stepSpec {D E B Order Fill Info : Type} (c : Collab D E B Order Fill)
    (m : ActionMap B Order Info) (strat : StrategyR B Info) (vm : ValuationMethodR)
    (state : DateTimeE) (s : SimState D E B) :
    Except Nat (List (EventR Order Fill) × SimState D E B) :=
  let dh := c.update s.dh state
  let pr := c.ping s.eng dh state
  let fills := pr.1
  let s1 : SimState D E B := ⟨dh, pr.2, fills.foldl c.updateFill s.bt⟩
  match processTriggers c m state strat.triggers s1 with
  | .error a => .error a
  | .ok (os, s2) =>
    let s3 : SimState D E B :=
      if state.2 = _eod_valuation_time vm then ⟨s2.dh, s2.eng, c.markToMarket s2.bt s2.dh state⟩
      else s2
    let s4 : SimState D E B := ⟨s3.dh, os.foldl c.submitOrder s3.eng, s3.bt⟩
    .ok (fills.map EventR.fill ++ [EventR.market] ++
      (if state.2 = _eod_valuation_time vm then [EventR.valuation] else []) ++
      os.map EventR.order, s4)

/-- Specification of the whole run, written from the spec's ordering
guarantees: the trace is the concatenation, in timer order, of the
per-timestamp blocks of `stepSpec`, every event in a block tagged with its
timestamp — so all events of timestamp T are processed before any event of
a later timestamp, and the per-timestamp order is fills, Market, Valuation
(at end of day), then the generated Order events. -/
def runSpec {D E B Order Fill Info : Type} (c : Collab D E B Order Fill)
    (m : ActionMap B Order Info) (strat : StrategyR B Info) (vm : ValuationMethodR) :
    List DateTimeE → SimState D E B →
    Except Nat (List (DateTimeE × EventR Order Fill) × SimState D E B)
  | [], s => .ok ([], s)
  | t :: rest, s =>
    match stepSpec c m strat vm t s with
    | .error a => .error a
    | .ok (tr, s1) =>
      match runSpec c m strat vm rest s1 with
      | .error a => .error a
      | .ok (tr2, s2) => .ok (tr.map (fun e => (t, e)) ++ tr2, s2)

/- ------------------------------------------------------------------ -/
/- HistoricalPricingContext (markets/historical.py)                   -/
/- ------------------------------------------------------------------ -/

/-- The state of a constructed `HistoricalPricingContext` that its `calc`
reads: the stored date range, the resolved market location
(`self.market.location`), and the pass-through flags forwarded to the
per-date contexts. -/
structure HistPC where
  dateRange : List Nat
  marketLocation : Nat
  csaTerm : Option Nat
  useCache : Bool
  visibleToGs : Bool
deriving DecidableEq

/-- The configuration of one per-date `PricingContext` opened by
`HistoricalPricingContext.calc` for its single sub-calculation. -/
structure SubCalc where
  pricingDate : Nat
  marketLoc : Nat
  marketDate : Nat
  isAsync : Bool
  csaTerm : Option Nat
  useCache : Bool
  visibleToGs : Bool
deriving DecidableEq

/-- `HistoricalPricingContext.__init__`: `start` and `dates` are mutually
exclusive and one is required; a missing `end` defaults to today; the date
range is built by the external `date_range(start, end, calendars)`, passed
in as `dr`.  Construction failure is a `ValueError`, modelled as
`.error` with the exact message. -/
def mkHistPC (today : Nat) (dr : Nat → Nat → List Nat)
    (start endD : Option Nat) (dates : Option (List Nat))
    (loc : Nat) (csa : Option Nat) (uc vg : Bool) : Except String HistPC :=
  match start with
  | some s =>
    match dates with
    | some _ => .error "Must supply start or dates, not both"
    | none =>
      let e := match endD with
        | some e => e
        | none => today
      .ok ⟨dr s e, loc, csa, uc, vg⟩
  | none =>
    match dates with
    | some ds => .ok ⟨ds, loc, csa, uc, vg⟩
    | none => .error "Must supply start or dates"

/-- `HistoricalPricingContext.calc`: one per-date `PricingContext` per
stored date, in stored order, forcing `is_async=True`, passing `csa_term`,
`use_cache` and `visible_to_gs` through, and building the market snapshot
from the context's market location and `close_market_date(location, date)`
(the external `close_market_date` is passed in as `cmd`). -/
def HistPC.calc (cmd : Nat → Nat → Nat) (ctx : HistPC) : List SubCalc :=
  ctx.dateRange.map (fun d =>
    ⟨d, ctx.marketLocation, cmd ctx.marketLocation d, true, ctx.csaTerm, ctx.useCache, ctx.visibleToGs⟩)

/- ------------------------------------------------------------------ -/
/- PricingContext stack (modelled from the spec)                      -/
/- ------------------------------------------------------------------ -/

/-- A market snapshot reference with a date and a location, as supplied
explicitly to a `PricingContext` (`CloseMarket(date, location)`). -/
structure MarketS where
  mdate : Nat
  location : Nat
deriving DecidableEq

/-- Modelled from the spec: the property frame of a `PricingContext`
(gs_quant/markets/core.py is not among the sources; fields and their
optionality follow spec section 3 and `test_creation`).  Every property is
optional; `None` means "not set on this frame". -/
structure PCtx where
  pricing_date : Option Nat
  market : Option MarketS
  market_data_location : Option Nat
  is_batch : Option Bool
  use_cache : Option Bool
  request_priority : Option Nat
deriving DecidableEq

/-- Modelled from the spec: nearest-enclosing-frame property resolution —
the first frame in the stack (innermost first) with the property set
provides the value. -/
def findProp {α : Type} (g : PCtx → Option α) : List PCtx → Option α
  | [] => none
  | c :: rest =>
    match g c with
    | some v => some v
    | none => findProp g rest

/-- Modelled from the spec: resolution of one property at scope entry — an
explicitly set value wins, else the nearest enclosing frame with it set. -/
def inhField {α : Type} (cur : Option α) (g : PCtx → Option α) (st : List PCtx) : Option α :=
  match cur with
  | some v => some v
  | none => findProp g st

/-- Modelled from the spec: the effective frame a context carries while in
scope — each unset inheritable property is filled from the nearest
enclosing frame that sets it; the market snapshot is not inherited
(`test_market_props`: "market is not inherited"). -/
def inheritPC (c : PCtx) (st : List PCtx) : PCtx :=
  { pricing_date := inhField c.pricing_date (fun x => x.pricing_date) st
    market := c.market
    market_data_location := inhField c.market_data_location (fun x => x.market_data_location) st
    is_batch := inhField c.is_batch (fun x => x.is_batch) st
    use_cache := inhField c.use_cache (fun x => x.use_cache) st
    request_priority := inhField c.request_priority (fun x => x.request_priority) st }

/-- A stack frame: the effective (inheritance-filled) frame paired with the
original context cached as "previous" for restoration at exit. -/
abbrev FrameP := PCtx × PCtx

/-- Modelled from the spec: scope entry pushes one frame — the effective
frame, with the pre-override context cached for restoration. -/
def enterCtx (c : PCtx) (st : List FrameP) : List FrameP :=
  (inheritPC c (st.map (fun f => f.1)), c) :: st

/-- Modelled from the spec: scope exit pops exactly one frame and restores
the cached pre-override property values (so inherited values are cleaned
off the context while explicitly set ones remain). -/
def exitCtx : List FrameP → Option (PCtx × List FrameP)
  | [] => none
  | f :: rest => some (f.2, rest)

/-- Whether an explicitly supplied market's location conflicts with an
explicitly supplied `market_data_location`. -/
def locationConflict (market : Option MarketS) (mdl : Option Nat) : Bool :=
  match market, mdl with
  | some m, some l => m.location != l
  | _, _ => false

/-- Whether a pricing date is in the future relative to today with no
explicit market and no forward-roll marker. -/
def futureDateViolation (today : Nat) (isRollFwd : Bool)
    (pricing_date : Option Nat) (market : Option MarketS) : Bool :=
  match pricing_date with
  | some d => decide (today < d) && market.isNone && !isRollFwd
  | none => false

/-- Modelled from the spec: `PricingContext` construction-time validation
(spec section 4.1 and `test_pricing_dates` / `test_market_props`): a
conflicting explicit market location fails fast, a future pricing date with
no market and no forward roll fails fast with the message
"pricing_date in the future"; otherwise the context object is built with
exactly the supplied properties. -/
def mkPricingContext (today : Nat) (isRollFwd : Bool) (pricing_date : Option Nat)
    (market : Option MarketS) (mdl : Option Nat) : Except String PCtx :=
  if locationConflict market mdl then
    .error "market location conflicts with market_data_location"
  else if futureDateViolation today isRollFwd pricing_date market then
    .error "pricing_date in the future"
  else
    .ok ⟨pricing_date, market, mdl, none, none, none⟩

/-- Modelled from the spec: the market-data location a frame contributes —
its explicit/inherited `market_data_location`, else the location of its
explicit market (`test_market_props`: a context gets its location from its
market when only the market is supplied). -/
def frameLocation (c : PCtx) : Option Nat :=
  match c.market_data_location with
  | some l => some l
  | none => c.market.map (fun m => m.location)

/-- The market-data locations contributed by the active frames, innermost
first. -/
def effLocations (st : List FrameP) : List Nat :=
  st.filterMap (fun f => frameLocation f.1)

/-- Modelled from the spec: the calculation-time check that the resolved
market-data locations of the active frames agree; a mismatch is a fatal
error surfaced to the caller (`test_location_mismatch`). -/
def checkLocations (st : List FrameP) : Except String Unit :=
  match effLocations st with
  | [] => .ok ()
  | l :: rest =>
    if rest.all (fun x => x == l) then .ok ()
    else .error "PricingContext market location mismatch"

/- ------------------------------------------------------------------ -/
/- Helper lemmas                                                      -/
/- ------------------------------------------------------------------ -/

theorem mem_dedupKeys (l : List Nat) :
    ∀ (seen : List Nat) (a : Nat), a ∈ dedupKeys seen l ↔ (a ∈ l ∧ a ∉ seen) := by
  induction l with
  | nil => intro seen a; simp [dedupKeys]
  | cons x xs ih =>
    intro seen a
    by_cases hx : x ∈ seen
    · rw [dedupKeys, if_pos hx, ih]
      constructor
      · rintro ⟨ha, hs⟩
        exact ⟨List.mem_cons_of_mem _ ha, hs⟩
      · rintro ⟨ha, hs⟩
        rcases List.mem_cons.mp ha with rfl | h
        · exact (hs hx).elim
        · exact ⟨h, hs⟩
    · rw [dedupKeys, if_neg hx]
      simp only [List.mem_cons, ih]
      constructor
      · rintro (rfl | ⟨ha, hs⟩)
        · exact ⟨Or.inl rfl, hx⟩
        · exact ⟨Or.inr ha, fun h => hs (Or.inr h)⟩
      · rintro ⟨ha, hs⟩
        by_cases hax : a = x
        · exact Or.inl hax
        · rcases ha with rfl | ha
          · exact (hax rfl).elim
          · exact Or.inr ⟨ha, fun h => h.elim hax hs⟩

theorem nodup_dedupKeys (l : List Nat) : ∀ seen, (dedupKeys seen l).Nodup := by
  induction l with
  | nil => intro seen; simp [dedupKeys]
  | cons x xs ih =>
    intro seen
    by_cases hx : x ∈ seen
    · rw [dedupKeys, if_pos hx]
      exact ih seen
    · rw [dedupKeys, if_neg hx]
      refine List.nodup_cons.mpr ⟨?_, ih _⟩
      intro hmem
      exact ((mem_dedupKeys xs (x :: seen) x).mp hmem).2 (List.mem_cons_self x seen)

theorem trigger_foldl_times {B Info : Type} :
    ∀ (ts : List (TriggerR B Info)) (acc : List Nat),
      ts.foldl (fun acc tr => acc ++ tr.triggerTimes) acc
        = acc ++ ts.flatMap (fun tr => tr.triggerTimes) := by
  intro ts
  induction ts with
  | nil => intro acc; simp
  | cons t ts ih => intro acc; simp [List.flatMap_cons, ih]

theorem mem_timerTimes {B Info : Type} (strat : StrategyR B Info) (vm : ValuationMethodR)
    (t : Nat) :
    t ∈ timerTimes strat vm ↔
      (∃ tr ∈ strat.triggers, t ∈ tr.triggerTimes) ∨ t = _eod_valuation_time vm := by
  unfold timerTimes
  rw [mem_dedupKeys, trigger_foldl_times]
  simp [List.mem_flatMap]

theorem nodup_timerTimes {B Info : Type} (strat : StrategyR B Info) (vm : ValuationMethodR) :
    (timerTimes strat vm).Nodup :=
  nodup_dedupKeys _ _

theorem mem_timerProduct (ds ts : List Nat) (d t : Nat) :
    (d, t) ∈ ds.flatMap (fun d0 => ts.map (fun t0 => (d0, t0))) ↔ d ∈ ds ∧ t ∈ ts := by
  simp only [List.mem_flatMap, List.mem_map, Prod.mk.injEq]
  constructor
  · rintro ⟨d0, hd0, t0, ht0, rfl, rfl⟩
    exact ⟨hd0, ht0⟩
  · rintro ⟨hd, ht⟩
    exact ⟨d, hd, t, ht, rfl, rfl⟩

theorem pairwise_timerProduct (ds ts : List Nat)
    (hd : ds.Pairwise (· < ·)) (ht : ts.Pairwise (· < ·)) :
    (ds.flatMap (fun d0 => ts.map (fun t0 => (d0, t0)))).Pairwise dtLt := by
  induction ds with
  | nil => simp
  | cons d ds ih =>
    rw [List.flatMap_cons, List.pairwise_append]
    refine ⟨?_, ih (List.Pairwise.of_cons hd), ?_⟩
    · rw [List.pairwise_map]
      exact ht.imp (fun h => Or.inr ⟨rfl, h⟩)
    · intro x hx y hy
      obtain ⟨t1, _, rfl⟩ := List.mem_map.mp hx
      obtain ⟨d2, hd2, hy2⟩ := List.mem_flatMap.mp hy
      obtain ⟨t2, _, rfl⟩ := List.mem_map.mp hy2
      exact Or.inl ((List.pairwise_cons.mp hd).1 d2 hd2)

theorem dtLt_ne (a b : DateTimeE) (h : dtLt a b) : a ≠ b := by
  rintro rfl
  rcases h with h | ⟨_, h⟩ <;> exact absurd h (lt_irrefl _)

/- ------------------------------------------------------------------ -/
/- Claim theorems                                                     -/
/- ------------------------------------------------------------------ -/

/-- C1 (counterexample): the timer built by `_timer` is not sorted in
general — with a single trigger declaring times-of-day 14:00 then 9:00, no
valuation window, and a one-day calendar range, the timer is
[(day, 14:00), (day, 9:00), (day, 23:00)], which is not even
non-decreasing, refuting the claim's "sorted ascending". -/
theorem _timer_unsorted_cex :
    _timer (fun _ _ => [0])
        (⟨[⟨[14, 9], fun _ _ => ⟨false, none⟩, []⟩]⟩ : StrategyR Nat Nat)
        ⟨none⟩ 0 0 = [(0, 14), (0, 9), (0, 23)] ∧
      ¬ (_timer (fun _ _ => [0])
        (⟨[⟨[14, 9], fun _ _ => ⟨false, none⟩, []⟩]⟩ : StrategyR Nat Nat)
        ⟨none⟩ 0 0).Sorted dtLe := by
  constructor
  · rfl
  · decide

/-- C1 (amended): the timer contains one timestamp per (date, time) pair,
date-major, where the dates are the calendar-filtered range and the times
are the first-occurrence-deduplicated union of all trigger-declared times
plus the end-of-day valuation time (the valuation window end when
configured, else 23:00); duplicates collapse and the end-of-day time is
always present.  The sequence is strictly sorted and visits each timestamp
exactly once PROVIDED the calendar range is strictly ascending and the
deduplicated time list happens to be strictly ascending — `_timer` itself
never sorts. -/
theorem _timer_spec {B Info : Type} (date_range : Nat → Nat → List Nat)
    (strat : StrategyR B Info) (vm : ValuationMethodR) (start fin : Nat)
    (hd : (date_range start fin).Sorted (· < ·))
    (ht : (timerTimes strat vm).Sorted (· < ·)) :
    (_timer date_range strat vm start fin).Sorted dtLt ∧
    (_timer date_range strat vm start fin).Nodup ∧
    (∀ d t, (d, t) ∈ _timer date_range strat vm start fin ↔
      d ∈ date_range start fin ∧ t ∈ timerTimes strat vm) ∧
    (∀ t, t ∈ timerTimes strat vm ↔
      (∃ tr ∈ strat.triggers, t ∈ tr.triggerTimes) ∨ t = _eod_valuation_time vm) ∧
    (timerTimes strat vm).Nodup ∧
    _eod_valuation_time vm ∈ timerTimes strat vm := by
  have hpw : (_timer date_range strat vm start fin).Pairwise dtLt :=
    pairwise_timerProduct _ _ hd ht
  refine ⟨hpw, hpw.imp (fun h => dtLt_ne _ _ h), ?_, mem_timerTimes strat vm, nodup_timerTimes strat vm, ?_⟩
  · intro d t
    exact mem_timerProduct _ _ d t
  · exact (mem_timerTimes strat vm _).mpr (Or.inr rfl)

/-- C1 witness: at a concrete strategy (one trigger declaring 9:00 and
14:00) over a two-day range, the hypotheses of `_timer_spec` hold and the
timer is sorted and duplicate-free. -/
theorem _timer_spec_witness :
    ((fun _ _ => [0, 1] : Nat → Nat → List Nat) 0 1).Sorted (· < ·) ∧
    (timerTimes (⟨[⟨[9, 14], fun _ _ => ⟨false, none⟩, []⟩]⟩ : StrategyR Nat Nat) ⟨none⟩).Sorted (· < ·) ∧
    (_timer (fun _ _ => [0, 1])
      (⟨[⟨[9, 14], fun _ _ => ⟨false, none⟩, []⟩]⟩ : StrategyR Nat Nat) ⟨none⟩ 0 1).Sorted dtLt ∧
    (_timer (fun _ _ => [0, 1])
      (⟨[⟨[9, 14], fun _ _ => ⟨false, none⟩, []⟩]⟩ : StrategyR Nat Nat) ⟨none⟩ 0 1).Nodup := by
  refine ⟨by decide, by decide, ?_, ?_⟩
  · exact (_timer_spec (fun _ _ => [0, 1]) _ _ 0 1 (by decide) (by decide)).1
  · exact (_timer_spec (fun _ _ => [0, 1]) _ _ 0 1 (by decide) (by decide)).2.1

theorem flatMap_singleton_map {α β : Type} (l : List α) (f : α → β) :
    l.flatMap (fun p => [f p]) = l.map f := by
  induction l with
  | nil => rfl
  | cons x xs ih => simp [List.flatMap_cons, ih]

theorem flatMap_pair_length {α β : Type} (l : List α) (f g : α → β) :
    (l.flatMap (fun p => [f p, g p])).length = 2 * l.length := by
  induction l with
  | nil => rfl
  | cons x xs ih =>
    simp only [List.flatMap_cons, List.length_append, List.length_cons, List.length_nil, ih]
    omega

/-- C3: `AddTradeActionImpl.apply_action` emits, per priceable, exactly one
market order with the priceable's quantity and
`generation_time = execution_datetime = state` when no holding duration is
set, and exactly two orders when a duration is set — the second with the
quantity negated and `execution_datetime = state + duration`. -/
theorem apply_action_spec (action : AddTradeActionR) (state : Int) :
    (action.trade_duration = none →
      apply_action action state = action.priceables.map (fun p =>
        ⟨p.instrument, p.instrument_quantity, state, state, action.aname⟩) ∧
      (apply_action action state).length = action.priceables.length) ∧
    (∀ dur, action.trade_duration = some dur →
      apply_action action state = action.priceables.flatMap (fun p =>
        [⟨p.instrument, p.instrument_quantity, state, state, action.aname⟩,
         ⟨p.instrument, p.instrument_quantity * (-1), state, state + dur, action.aname⟩]) ∧
      (apply_action action state).length = 2 * action.priceables.length) := by
  constructor
  · intro h
    have he : apply_action action state = action.priceables.map (fun p =>
        ⟨p.instrument, p.instrument_quantity, state, state, action.aname⟩) := by
      unfold apply_action generate_orders
      rw [h]
      exact flatMap_singleton_map _ _
    exact ⟨he, by rw [he, List.length_map]⟩
  · intro dur h
    have he : apply_action action state = action.priceables.flatMap (fun p =>
        [⟨p.instrument, p.instrument_quantity, state, state, action.aname⟩,
         ⟨p.instrument, p.instrument_quantity * (-1), state, state + dur, action.aname⟩]) := by
      unfold apply_action generate_orders
      rw [h]
    exact ⟨he, by rw [he]; exact flatMap_pair_length _ _ _⟩

/-- C3 witness: a concrete action on one priceable of quantity 5 — without
a duration exactly one order at state 100, with a 5-day duration exactly
two, the second negated and executing at 105. -/
theorem apply_action_spec_witness :
    apply_action ⟨[⟨1, 5⟩], none, 7⟩ 100 = [⟨1, 5, 100, 100, 7⟩] ∧
    apply_action ⟨[⟨1, 5⟩], some 5, 7⟩ 100 = [⟨1, 5, 100, 100, 7⟩, ⟨1, -5, 100, 105, 7⟩] := by
  constructor
  · exact ((apply_action_spec ⟨[⟨1, 5⟩], none, 7⟩ 100).1 rfl).1.trans (by decide)
  · exact ((apply_action_spec ⟨[⟨1, 5⟩], some 5, 7⟩ 100).2 5 rfl).1.trans (by decide)

theorem get_action_handler_not_found {B Order Info : Type} (m : ActionMap B Order Info)
    (a : ActionR) (hne : ∀ p ∈ m, p.1 ≠ a.atype) :
    get_action_handler m a = .error a.atype := by
  unfold get_action_handler
  cases hfind : m.find? (fun p => p.1 == a.atype) with
  | none => rfl
  | some p =>
    have hp : p ∈ m := List.mem_of_find?_eq_some hfind
    have := List.find?_some hfind
    exact absurd (by simpa using this) (hne p hp)

theorem supports_strategy_iff {B Order Info : Type} (m : ActionMap B Order Info)
    (strat : StrategyR B Info) (hne : strat.triggers ≠ []) :
    supports_strategy m strat = .ok true ↔
      ∀ tr ∈ strat.triggers, ∀ a ∈ tr.actions, isOkE (get_action_handler m a) = true := by
  obtain ⟨trigs⟩ := strat
  cases trigs with
  | nil => exact absurd rfl hne
  | cons t ts =>
    simp only [supports_strategy, Except.ok.injEq, List.all_eq_true, List.mem_flatMap]
    constructor
    · intro h tr htr a ha
      exact h a ⟨tr, htr, ha⟩
    · rintro h a ⟨tr, htr, ha⟩
      exact h tr htr a ha

theorem supports_strategy_false {B Order Info : Type} (m : ActionMap B Order Info)
    (strat : StrategyR B Info) (tr : TriggerR B Info) (a : ActionR)
    (htr : tr ∈ strat.triggers) (ha : a ∈ tr.actions)
    (hne : ∀ p ∈ m, p.1 ≠ a.atype) :
    supports_strategy m strat = .ok false := by
  obtain ⟨trigs⟩ := strat
  cases trigs with
  | nil => exact absurd htr (List.not_mem_nil tr)
  | cons t ts =>
    simp only [supports_strategy, Except.ok.injEq]
    cases hall : (t :: ts).flatMap (fun tr => tr.actions) |>.all
        (fun a => isOkE (get_action_handler m a)) with
    | false => rfl
    | true =>
      have := (List.all_eq_true.mp hall) a (List.mem_flatMap.mpr ⟨tr, htr, ha⟩)
      rw [get_action_handler_not_found m a hne] at this
      simp [isOkE] at this

theorem processActions_unregistered {D E B Order Fill Info : Type}
    (c : Collab D E B Order Fill) (m : ActionMap B Order Info) (state : DateTimeE)
    (infoDict : Option (List (Nat × Info))) :
    ∀ (acts : List ActionR) (s : SimState D E B) (a : ActionR), a ∈ acts →
      (∀ p ∈ m, p.1 ≠ a.atype) →
      ∃ t, processActions c m state infoDict acts s = .error t := by
  intro acts
  induction acts with
  | nil => intro s a ha; exact absurd ha (List.not_mem_nil a)
  | cons b rest ih =>
    intro s a ha hne
    cases hb : get_action_handler m b with
    | error t =>
      refine ⟨t, ?_⟩
      simp [processActions, hb]
    | ok h =>
      rcases List.mem_cons.mp ha with rfl | ha2
      · rw [get_action_handler_not_found m a hne] at hb
        exact absurd hb (by simp)
      · obtain ⟨t, hrec⟩ := ih ⟨s.dh, s.eng,
            c.recordOrders s.bt (h state s.bt (lookupInfo infoDict b.atype))⟩ a ha2 hne
        refine ⟨t, ?_⟩
        simp [processActions, hb, hrec]

/-- C4 (amended): for every strategy with at least one trigger,
`supports_strategy` returns true exactly when every action of every trigger
resolves to a registered handler; resolving a handler for an unregistered
action type yields the fatal `RuntimeError` naming that type, and the event
loop's action processing aborts with that error (fail fast), so
`run_backtest` on an unsupported strategy fails at handler resolution.  For
a strategy with no triggers at all, `supports_strategy` does not return
true — the `reduce` over an empty sequence raises `TypeError` (see the
counterexample). -/
theorem supports_strategy_spec {B Order Info : Type} :
    (∀ (m : ActionMap B Order Info) (strat : StrategyR B Info), strat.triggers ≠ [] →
      (supports_strategy m strat = .ok true ↔
        ∀ tr ∈ strat.triggers, ∀ a ∈ tr.actions, isOkE (get_action_handler m a) = true)) ∧
    (∀ (m : ActionMap B Order Info) (a : ActionR),
      (∀ p ∈ m, p.1 ≠ a.atype) → get_action_handler m a = .error a.atype) ∧
    (∀ (D E Fill : Type) (c : Collab D E B Order Fill) (m : ActionMap B Order Info)
      (state : DateTimeE) (infoDict : Option (List (Nat × Info)))
      (acts : List ActionR) (s : SimState D E B) (a : ActionR), a ∈ acts →
      (∀ p ∈ m, p.1 ≠ a.atype) →
      ∃ t, processActions c m state infoDict acts s = .error t) :=
  ⟨fun m strat h => supports_strategy_iff m strat h,
   fun m a h => get_action_handler_not_found m a h,
   fun _ _ _ c m state infoDict acts s a ha hne =>
     processActions_unregistered c m state infoDict acts s a ha hne⟩

/-- C4 (counterexample): a strategy with no triggers makes every action
vacuously registered, yet `supports_strategy` does not return true — the
`reduce(lambda x, y: x + y, ...)` over the empty trigger sequence raises
`TypeError` (modelled as `.error ()`), refuting the unconditional
"returns true if and only if". -/
theorem supports_strategy_empty_cex :
    (∀ tr ∈ (⟨[]⟩ : StrategyR Nat Nat).triggers, ∀ a ∈ tr.actions,
      isOkE (get_action_handler ([] : ActionMap Nat Nat Nat) a) = true) ∧
    supports_strategy ([] : ActionMap Nat Nat Nat) ⟨[]⟩ = .error () := by
  exact ⟨by simp, rfl⟩

/-- C4 witness: a one-trigger strategy whose single action type 1 is
registered is supported; an action of unregistered type 9 resolves to the
error naming 9, and processing a list containing it aborts. -/
theorem supports_strategy_spec_witness :
    supports_strategy ([(1, fun _ _ _ _ => [])] : ActionMap Nat Nat Nat)
      (⟨[⟨[9], fun _ _ => ⟨false, none⟩, [⟨1, 0⟩]⟩]⟩ : StrategyR Nat Nat) = .ok true ∧
    get_action_handler ([(1, fun _ _ _ _ => [])] : ActionMap Nat Nat Nat) ⟨9, 0⟩ = .error 9 ∧
    ∃ t, processActions (⟨fun d _ => d, fun e _ _ => ([], e), fun e _ => e,
        fun b _ => b, fun b _ => b, fun b _ _ => b⟩ : Collab Nat Nat Nat Nat Nat)
      ([(1, fun _ _ _ _ => [])] : ActionMap Nat Nat Nat)
      (0, 0) none [⟨9, 0⟩] ⟨0, 0, 0⟩ = .error t := by
  refine ⟨?_, ?_, ?_⟩
  · exact (supports_strategy_spec.1 _ _ (List.cons_ne_nil _ _)).mpr (by decide)
  · exact supports_strategy_spec.2.1 _ _ (by decide)
  · exact supports_strategy_spec.2.2 Nat Nat Nat _ _ (0, 0) none _ _ ⟨9, 0⟩
      (List.mem_singleton.mpr rfl) (by decide)

/-- C10: dispatch is on the exact runtime type — an action whose type tag
is not a key of `action_impl_map` resolves to the unsupported-action error
even when a (strict-subclass-related) base type is registered, and any
strategy containing it is reported unsupported by `supports_strategy`. -/
theorem exact_type_dispatch {B Order Info : Type} (m : ActionMap B Order Info)
    (a : ActionR) (sub : Nat → Nat → Bool) (tbase : Nat)
    (himpl : ActionR → DateTimeE → B → Option Info → List Order)
    (_hbase : (tbase, himpl) ∈ m) (_hsub : sub a.atype tbase = true)
    (hne : ∀ p ∈ m, p.1 ≠ a.atype)
    (strat : StrategyR B Info) (tr : TriggerR B Info)
    (htr : tr ∈ strat.triggers) (ha : a ∈ tr.actions) :
    get_action_handler m a = .error a.atype ∧
    supports_strategy m strat = .ok false :=
  ⟨get_action_handler_not_found m a hne,
   supports_strategy_false m strat tr a htr ha hne⟩

/-- C10 witness: with only type 1 registered and `sub` relating type 2 to
base type 1, an action of type 2 resolves to the error naming 2 and its
strategy is unsupported. -/
theorem exact_type_dispatch_witness :
    get_action_handler ([(1, fun _ _ _ _ => [])] : ActionMap Nat Nat Nat) ⟨2, 0⟩ = .error 2 ∧
    supports_strategy ([(1, fun _ _ _ _ => [])] : ActionMap Nat Nat Nat)
      (⟨[⟨[9], fun _ _ => ⟨false, none⟩, [⟨2, 0⟩]⟩]⟩ : StrategyR Nat Nat) = .ok false := by
  exact exact_type_dispatch ([(1, fun _ _ _ _ => [])] : ActionMap Nat Nat Nat) ⟨2, 0⟩
    (fun x y => x == 2 && y == 1) 1 (fun _ _ _ _ => [])
    (List.mem_singleton.mpr rfl) (by decide) (by decide)
    (⟨[⟨[9], fun _ _ => ⟨false, none⟩, [⟨2, 0⟩]⟩]⟩ : StrategyR Nat Nat)
    ⟨[9], fun _ _ => ⟨false, none⟩, [⟨2, 0⟩]⟩
    (List.mem_singleton.mpr rfl) (List.mem_singleton.mpr rfl)

/-- C6: `HistoricalPricingContext.__init__` rejects supplying both `start`
and `dates` and rejects supplying neither (each a `ValueError`, so no
partially-initialised date range escapes); with `start` but no `end`, the
end defaults to today; with both, the stored range is
`date_range(start, end)`. -/
theorem mkHistPC_validation (today : Nat) (dr : Nat → Nat → List Nat)
    (s e : Nat) (eo : Option Nat) (ds : List Nat) (loc : Nat) (csa : Option Nat)
    (uc vg : Bool) :
    mkHistPC today dr (some s) eo (some ds) loc csa uc vg =
      .error "Must supply start or dates, not both" ∧
    mkHistPC today dr none eo none loc csa uc vg = .error "Must supply start or dates" ∧
    mkHistPC today dr (some s) none none loc csa uc vg = .ok ⟨dr s today, loc, csa, uc, vg⟩ ∧
    mkHistPC today dr (some s) (some e) none loc csa uc vg = .ok ⟨dr s e, loc, csa, uc, vg⟩ :=
  ⟨rfl, rfl, rfl, rfl⟩

/-- C5 (counterexample): `calc` does not enumerate the dates in ascending
order in general — a `HistoricalPricingContext` legitimately constructed
from the explicit iterable `dates=[1, 0]` stores that order and `calc`
enumerates [1, 0], which is not ascending. -/
theorem calc_not_ascending_cex :
    mkHistPC 10 (fun a b => [a, b]) none none (some [1, 0]) 5 none false false =
      .ok ⟨[1, 0], 5, none, false, false⟩ ∧
    ((HistPC.calc (fun _ d => d) ⟨[1, 0], 5, none, false, false⟩).map
      (fun sc => sc.pricingDate)) = [1, 0] ∧
    ¬ ((HistPC.calc (fun _ d => d) ⟨[1, 0], 5, none, false, false⟩).map
      (fun sc => sc.pricingDate)).Sorted (· ≤ ·) :=
  ⟨rfl, rfl, by decide⟩

/-- C5 (amended): `calc` enumerates the stored date sequence in its stored
order (ascending whenever the stored sequence is ascending, as when built
from `start`/`end`), opens per date exactly one sub-calculation whose
context forces `is_async = true`, passes `csa_term`, `use_cache` and
`visible_to_gs` through, and builds the market snapshot from the historical
context's market location and `close_market_date(location, date)`; the
per-date results correspond one-to-one with the stored date sequence, no
omissions or reordering. -/
theorem calc_spec (cmd : Nat → Nat → Nat) (ctx : HistPC) :
    ((ctx.calc cmd).map (fun sc => sc.pricingDate) = ctx.dateRange) ∧
    ((ctx.calc cmd).length = ctx.dateRange.length) ∧
    (∀ sc ∈ ctx.calc cmd, sc.isAsync = true ∧ sc.marketLoc = ctx.marketLocation ∧
      sc.marketDate = cmd ctx.marketLocation sc.pricingDate ∧ sc.csaTerm = ctx.csaTerm ∧
      sc.useCache = ctx.useCache ∧ sc.visibleToGs = ctx.visibleToGs) ∧
    (∀ d ∈ ctx.dateRange,
      (⟨d, ctx.marketLocation, cmd ctx.marketLocation d, true,
        ctx.csaTerm, ctx.useCache, ctx.visibleToGs⟩ : SubCalc) ∈ ctx.calc cmd) ∧
    (ctx.dateRange.Sorted (· < ·) →
      ((ctx.calc cmd).map (fun sc => sc.pricingDate)).Sorted (· < ·)) := by
  have hmap : (ctx.calc cmd).map (fun sc => sc.pricingDate) = ctx.dateRange := by
    simp [HistPC.calc, List.map_map]
    exact List.map_id _
  refine ⟨hmap, ?_, ?_, ?_, ?_⟩
  · simp [HistPC.calc]
  · intro sc hsc
    obtain ⟨d, _, rfl⟩ := List.mem_map.mp hsc
    exact ⟨rfl, rfl, rfl, rfl, rfl, rfl⟩
  · intro d hd
    exact List.mem_map.mpr ⟨d, hd, rfl⟩
  · intro hsorted
    rw [hmap]
    exact hsorted

/-- C5 witness: over the concrete ascending date range [1, 2], `calc`
enumerates exactly [1, 2] and the per-date pricing dates are sorted. -/
theorem calc_spec_witness :
    ((HistPC.calc (fun _ d => d + 1) ⟨[1, 2], 5, some 3, true, false⟩).map
      (fun sc => sc.pricingDate) = [1, 2]) ∧
    ((HistPC.calc (fun _ d => d + 1) ⟨[1, 2], 5, some 3, true, false⟩).map
      (fun sc => sc.pricingDate)).Sorted (· < ·) :=
  ⟨(calc_spec (fun _ d => d + 1) ⟨[1, 2], 5, some 3, true, false⟩).1,
   (calc_spec (fun _ d => d + 1) ⟨[1, 2], 5, some 3, true, false⟩).2.2.2.2 (by decide)⟩

/-- C7: for nested contexts where the outer frame sets a property the inner
does not, reading the property inside the inner scope yields the outer's
value (nearest enclosing frame wins, the hard-coded default applying only
when no frame sets it); exiting pops exactly one frame and restores the
inner context's own (pre-override) values — the inherited value is cleaned
off while the outer frame and explicitly set properties are untouched. -/
theorem pricing_context_inheritance {α : Type} (g : PCtx → Option α) (dflt : α)
    (hg : ∀ c st, g (inheritPC c st) = inhField (g c) g st)
    (c1 c2 : PCtx) (st : List FrameP) (v : α)
    (h1 : g c1 = some v) (h2 : g c2 = none) :
    g (inheritPC c2 ((enterCtx c1 st).map (fun f => f.1))) = some v ∧
    exitCtx (enterCtx c2 (enterCtx c1 st)) = some (c2, enterCtx c1 st) ∧
    (g (inheritPC c2 [])).getD dflt = dflt ∧
    (g c2).getD dflt = dflt := by
  refine ⟨?_, rfl, ?_, by rw [h2]; rfl⟩
  · simp only [enterCtx, List.map_cons, hg, h2, inhField, findProp, h1]
  · simp only [hg, h2, inhField, findProp]
    rfl

/-- C7 witness: with `is_batch` explicitly true on the outer context and
unset on the inner, the inner's in-scope frame reads true; exit restores
the inner context with `is_batch` unset again. -/
theorem pricing_context_inheritance_witness :
    (inheritPC ⟨none, none, none, none, none, none⟩
      ((enterCtx ⟨none, none, none, some true, none, none⟩ []).map (fun f => f.1))).is_batch =
        some true ∧
    exitCtx (enterCtx ⟨none, none, none, none, none, none⟩
        (enterCtx ⟨none, none, none, some true, none, none⟩ [])) =
      some (⟨none, none, none, none, none, none⟩,
        enterCtx ⟨none, none, none, some true, none, none⟩ []) := by
  have h := pricing_context_inheritance (fun c => c.is_batch) false
    (fun _ _ => rfl) ⟨none, none, none, some true, none, none⟩
    ⟨none, none, none, none, none, none⟩ [] true rfl rfl
  exact ⟨h.1, h.2.1⟩

/-- C8: constructing a `PricingContext` with a strictly future pricing date
and no explicit market raises the "pricing_date in the future" validation
error; the same construction with an explicit market supplied, or tagged as
a forward-roll operation, succeeds. -/
theorem future_pricing_date_spec (today d : Nat) (mdl : Option Nat) (m : MarketS)
    (h : today < d) :
    mkPricingContext today false (some d) none mdl = .error "pricing_date in the future" ∧
    mkPricingContext today false (some d) (some m) none =
      .ok ⟨some d, some m, none, none, none, none⟩ ∧
    mkPricingContext today true (some d) none mdl = .ok ⟨some d, none, mdl, none, none, none⟩ := by
  refine ⟨?_, ?_, ?_⟩
  · simp [mkPricingContext, locationConflict, futureDateViolation, h]
  · simp [mkPricingContext, locationConflict, futureDateViolation]
  · simp [mkPricingContext, locationConflict, futureDateViolation]

/-- C8 witness: with today = 5, constructing at pricing date 10 errors,
while the same date with an explicit market dated 4 succeeds. -/
theorem future_pricing_date_spec_witness :
    mkPricingContext 5 false (some 10) none none = .error "pricing_date in the future" ∧
    mkPricingContext 5 false (some 10) (some ⟨4, 2⟩) none =
      .ok ⟨some 10, some ⟨4, 2⟩, none, none, none, none⟩ := by
  have h := future_pricing_date_spec 5 10 none ⟨4, 2⟩ (by decide)
  exact ⟨h.1, h.2.1⟩

/-- C9: an explicitly supplied market whose location conflicts with an
explicitly supplied `market_data_location` fails construction immediately
(no object is produced), and nesting contexts whose resolved market-data
locations differ is a fatal error at calculation time. -/
theorem location_conflict_spec (today : Nat) (roll : Bool) (pd : Option Nat)
    (m : MarketS) (l : Nat) (hne : m.location ≠ l)
    (c1 c2 : PCtx) (st : List FrameP) (l1 l2 : Nat)
    (h1 : c1.market_data_location = some l1) (h2 : c2.market_data_location = some l2)
    (h12 : l1 ≠ l2) :
    mkPricingContext today roll pd (some m) (some l) =
      .error "market location conflicts with market_data_location" ∧
    checkLocations (enterCtx c2 (enterCtx c1 st)) =
      .error "PricingContext market location mismatch" := by
  constructor
  · simp [mkPricingContext, locationConflict, hne]
  · have e2 : frameLocation (inheritPC c2
        (inheritPC c1 (st.map (fun f => f.1)) :: st.map (fun f => f.1))) = some l2 := by
      simp [frameLocation, inheritPC, inhField, h2]
    have e1 : frameLocation (inheritPC c1 (st.map (fun f => f.1))) = some l1 := by
      simp [frameLocation, inheritPC, inhField, h1]
    have heff : effLocations (enterCtx c2 (enterCtx c1 st)) = l2 :: l1 :: effLocations st := by
      show List.filterMap (fun f => frameLocation f.1)
          ((inheritPC c2 (inheritPC c1 (st.map (fun f => f.1)) :: st.map (fun f => f.1)), c2) ::
            (inheritPC c1 (st.map (fun f => f.1)), c1) :: st) = l2 :: l1 :: effLocations st
      simp only [List.filterMap_cons, e2, e1]
      rfl
    have hb : (l1 == l2) = false := by
      simpa using h12
    rw [checkLocations, heff]
    simp [hb]

/-- C9 witness: market location 1 against explicit location 2 fails
construction; an outer frame at location 1 under an inner frame at location
2 fails the calculation-time check. -/
theorem location_conflict_spec_witness :
    mkPricingContext 5 false none (some ⟨0, 1⟩) (some 2) =
      .error "market location conflicts with market_data_location" ∧
    checkLocations (enterCtx ⟨none, none, some 2, none, none, none⟩
        (enterCtx ⟨none, none, some 1, none, none, none⟩ [])) =
      .error "PricingContext market location mismatch" := by
  have h := location_conflict_spec 5 false none ⟨0, 1⟩ 2 (by decide)
    ⟨none, none, some 1, none, none, none⟩ ⟨none, none, some 2, none, none, none⟩ [] 1 2
    rfl rfl (by decide)
  exact ⟨h.1, h.2⟩

theorem drain_fills {D E B Order Fill Info : Type} (c : Collab D E B Order Fill)
    (m : ActionMap B Order Info) (strat : StrategyR B Info) (state : DateTimeE) :
    ∀ (fills : List Fill) (q : List (EventR Order Fill)) (s : SimState D E B),
      drain c m strat state (fills.map EventR.fill ++ q) s =
        (drain c m strat state q ⟨s.dh, s.eng, fills.foldl c.updateFill s.bt⟩).map
          (fun p => (fills.map EventR.fill ++ p.1, p.2)) := by
  intro fills
  induction fills with
  | nil =>
    intro q s
    cases h : drain c m strat state q s <;> simp [Except.map, h]
  | cons f fs ih =>
    intro q s
    rw [List.map_cons, List.cons_append]
    simp only [drain]
    rw [ih q ⟨s.dh, s.eng, c.updateFill s.bt f⟩]
    cases h : drain c m strat state q
        ⟨s.dh, s.eng, fs.foldl c.updateFill (c.updateFill s.bt f)⟩ <;>
      simp [Except.map, h]

theorem drain_orders {D E B Order Fill Info : Type} (c : Collab D E B Order Fill)
    (m : ActionMap B Order Info) (strat : StrategyR B Info) (state : DateTimeE) :
    ∀ (os : List Order) (s : SimState D E B),
      drain c m strat state (os.map EventR.order) s =
        .ok (os.map EventR.order, ⟨s.dh, os.foldl c.submitOrder s.eng, s.bt⟩) := by
  intro os
  induction os with
  | nil => intro s; simp [drain]
  | cons o os ih =>
    intro s
    rw [List.map_cons]
    simp only [drain]
    rw [ih ⟨s.dh, c.submitOrder s.eng o, s.bt⟩]
    rfl

theorem step_eq_stepSpec {D E B Order Fill Info : Type} (c : Collab D E B Order Fill)
    (m : ActionMap B Order Info) (strat : StrategyR B Info) (vm : ValuationMethodR)
    (state : DateTimeE) (s : SimState D E B) :
    stepE c m strat vm state s = stepSpec c m strat vm state s := by
  simp only [stepE, stepSpec]
  rw [List.append_assoc, drain_fills]
  dsimp only
  by_cases he : state.2 = _eod_valuation_time vm
  · simp only [if_pos he, List.singleton_append]
    simp only [drain]
    cases hpt : processTriggers c m state strat.triggers
        ⟨c.update s.dh state, (c.ping s.eng (c.update s.dh state) state).2,
          List.foldl c.updateFill s.bt (c.ping s.eng (c.update s.dh state) state).1⟩ with
    | error t => simp [Except.map]
    | ok p =>
      obtain ⟨os, s2⟩ := p
      dsimp only
      simp only [List.singleton_append, drain]
      rw [drain_orders c m strat state os ⟨s2.dh, s2.eng, c.markToMarket s2.bt s2.dh state⟩]
      simp [Except.map]
  · simp only [if_neg he, List.singleton_append, List.append_nil]
    simp only [drain]
    cases hpt : processTriggers c m state strat.triggers
        ⟨c.update s.dh state, (c.ping s.eng (c.update s.dh state) state).2,
          List.foldl c.updateFill s.bt (c.ping s.eng (c.update s.dh state) state).1⟩ with
    | error t => simp [Except.map]
    | ok p =>
      obtain ⟨os, s2⟩ := p
      dsimp only
      simp only [List.nil_append]
      rw [drain_orders c m strat state os s2]
      simp [Except.map]

theorem runSpec_tags {D E B Order Fill Info : Type} (c : Collab D E B Order Fill)
    (m : ActionMap B Order Info) (strat : StrategyR B Info) (vm : ValuationMethodR) :
    ∀ (timer : List DateTimeE) (s : SimState D E B) trc s2,
      runSpec c m strat vm timer s = .ok (trc, s2) → ∀ p ∈ trc, p.1 ∈ timer := by
  intro timer
  induction timer with
  | nil =>
    intro s trc s2 h p hp
    simp only [runSpec, Except.ok.injEq, Prod.mk.injEq] at h
    rw [← h.1] at hp
    exact absurd hp (List.not_mem_nil p)
  | cons t rest ih =>
    intro s trc s2 h p hp
    simp only [runSpec] at h
    cases h1 : stepSpec c m strat vm t s with
    | error a =>
      rw [h1] at h
      simp at h
    | ok q =>
      obtain ⟨tr, s1⟩ := q
      rw [h1] at h
      replace h : (match runSpec c m strat vm rest s1 with
        | Except.error a => Except.error a
        | Except.ok (tr2, s2) =>
          Except.ok (List.map (fun e => (t, e)) tr ++ tr2, s2)) = Except.ok (trc, s2) := h
      cases h2 : runSpec c m strat vm rest s1 with
      | error a =>
        rw [h2] at h
        simp at h
      | ok q2 =>
        obtain ⟨tr2, s3⟩ := q2
        rw [h2] at h
        simp only [Except.ok.injEq, Prod.mk.injEq] at h
        rw [← h.1] at hp
        rcases List.mem_append.mp hp with hl | hr
        · obtain ⟨e, _, rfl⟩ := List.mem_map.mp hl
          exact List.mem_cons_self t rest
        · exact List.mem_cons_of_mem t (ih s1 tr2 s3 h2 p hr)

/-- C2: `_run` processes events exactly as the spec orders them — it equals
`runSpec`, whose trace is, per timer timestamp taken strictly in timer
order, the FIFO-drained block [fills in ping order, the Market event, the
Valuation event at end of day, then one Order event per order generated by
Market-event trigger handling, in generation order], with the queue for a
timestamp drained to empty (dynamically enqueued Order events included)
before the next timestamp starts; consequently an Order event generated by
a trigger firing at T is processed after the Market-event handling that
created it at T and before any event of a later timestamp, and every
processed event carries a timestamp of the timer. -/
theorem _run_ordering {D E B Order Fill Info : Type} (c : Collab D E B Order Fill)
    (m : ActionMap B Order Info) (strat : StrategyR B Info) (vm : ValuationMethodR)
    (timer : List DateTimeE) (s : SimState D E B) :
    _run c m strat vm timer s = runSpec c m strat vm timer s ∧
    (∀ trc s2, _run c m strat vm timer s = .ok (trc, s2) → ∀ p ∈ trc, p.1 ∈ timer) := by
  have heq : ∀ (tmr : List DateTimeE) (st : SimState D E B),
      _run c m strat vm tmr st = runSpec c m strat vm tmr st := by
    intro tmr
    induction tmr with
    | nil => intro st; rfl
    | cons t rest ih =>
      intro st
      simp only [_run, runSpec, step_eq_stepSpec]
      cases stepSpec c m strat vm t st with
      | error a => rfl
      | ok q =>
        obtain ⟨tr, s1⟩ := q
        simp only [ih]
  refine ⟨heq timer s, ?_⟩
  intro trc s2 h
  rw [heq timer s] at h
  exact runSpec_tags c m strat vm timer s trc s2 h

/-- C2 witness: a concrete one-timestamp run — a trigger firing at (0, 23)
whose single registered action emits order 42 — where `_run` equals
`runSpec`, evaluates to the trace [Market, Valuation, Order 42] all tagged
(0, 23), and every processed event carries a timer timestamp. -/
theorem _run_ordering_witness :
    _run (⟨fun d _ => d, fun e _ _ => ([], e), fun e _ => e + 1,
        fun b os => b + os.length, fun b _ => b, fun b _ _ => b + 100⟩ :
          Collab Nat Nat Nat Nat Nat)
      ([(1, fun _ _ _ _ => [42])] : ActionMap Nat Nat Nat)
      (⟨[⟨[], fun _ _ => ⟨true, none⟩, [⟨1, 0⟩]⟩]⟩ : StrategyR Nat Nat)
      ⟨none⟩ [(0, 23)] ⟨0, 0, 0⟩ =
      .ok ([((0, 23), EventR.market), ((0, 23), EventR.valuation),
        ((0, 23), EventR.order 42)], ⟨0, 1, 101⟩) ∧
    (∀ p ∈ [(((0, 23) : DateTimeE), (EventR.market : EventR Nat Nat)),
        ((0, 23), EventR.valuation), ((0, 23), EventR.order 42)],
      p.1 ∈ [((0, 23) : DateTimeE)]) := by
  have h := _run_ordering (⟨fun d _ => d, fun e _ _ => ([], e), fun e _ => e + 1,
        fun b os => b + os.length, fun b _ => b, fun b _ _ => b + 100⟩ :
          Collab Nat Nat Nat Nat Nat)
      ([(1, fun _ _ _ _ => [42])] : ActionMap Nat Nat Nat)
      (⟨[⟨[], fun _ _ => ⟨true, none⟩, [⟨1, 0⟩]⟩]⟩ : StrategyR Nat Nat)
      ⟨none⟩ [(0, 23)] ⟨0, 0, 0⟩
  have hok : _run (⟨fun d _ => d, fun e _ _ => ([], e), fun e _ => e + 1,
        fun b os => b + os.length, fun b _ => b, fun b _ _ => b + 100⟩ :
          Collab Nat Nat Nat Nat Nat)
      ([(1, fun _ _ _ _ => [42])] : ActionMap Nat Nat Nat)
      (⟨[⟨[], fun _ _ => ⟨true, none⟩, [⟨1, 0⟩]⟩]⟩ : StrategyR Nat Nat)
      ⟨none⟩ [(0, 23)] ⟨0, 0, 0⟩ =
      .ok ([((0, 23), EventR.market), ((0, 23), EventR.valuation),
        ((0, 23), EventR.order 42)], ⟨0, 1, 101⟩) := h.1.trans rfl
  exact ⟨hok, h.2 _ _ hok⟩
